import Mathlib

/-!
# Verification of the `python_jobs` service-update engine

Shallow embedding of the update-detection and reconciliation logic of the
service-update job (`jobs/service_update/`): the natural-sort tag ordering,
the registry tag resolver, the chart version resolver, the per-file detection
loops, the repository tree scanner, the update policy filters and the
reconciler's effect sequence.  Network fetches are modelled as an explicit
environment (`World`) mapping request keys to the data a successful response
would yield, with `none` standing for a `requests.RequestException` after
retries.  Exceptions that the Python code can raise past a function boundary
(`ValueError`, `KeyError`, `IndexError`) are modelled with `Except RunError`.
-/

/-! ## Natural ("natsort") ordering

`natsorted(xs, reverse=True)` from the `natsort` package, as used by
`filter_and_sort_tags` (image_utils.py) and the two chart-update checkers
(chart_utils.py): each string is tokenized into maximal runs of non-digit and
digit characters, digit runs compare by numeric value, text runs compare by
code point, and the resulting key tuples compare lexicographically; a key that
would start with a number gets an empty leading text chunk.  Python's `sorted`
with `reverse=True` is a stable descending sort.  ASCII digits are used (the
Python code applies the default `re`/`int` behaviour to registry tags and
chart versions, which are ASCII). -/

/-- Three-way comparison of naturals, mirroring Python integer comparison. -/
def natCompare (m n : Nat) : Ordering :=
  if m < n then .lt else if n < m then .gt else .eq

/-- Code-point comparison of characters (Python compares strings by code point). -/
def charCmp (a b : Char) : Ordering := natCompare a.toNat b.toNat

/-- Lexicographic comparison of lists from a component comparison, mirroring
Python tuple / string comparison (a strict prefix is smaller). -/
def listCmp (cmp : α → α → Ordering) : List α → List α → Ordering
  | [], [] => .eq
  | [], _ :: _ => .lt
  | _ :: _, [] => .gt
  | a :: l₁, b :: l₂ =>
    match cmp a b with
    | .eq => listCmp cmp l₁ l₂
    | o => o

/-- One chunk of natsort's tokenization: a maximal run of non-digit characters
or a maximal run of digit characters.  Digit runs keep their raw characters so
that the numeric value is taken exactly as Python's `int` conversion does. -/
inductive NChunk where
  | str (cs : List Char)
  | num (ds : List Char)
deriving DecidableEq

/-- Extend a tokenization by one character on the left, merging it into the
first chunk when the digit/non-digit kind matches. -/
def consTok (c : Char) : List NChunk → List NChunk
  | [] => if c.isDigit then [.num [c]] else [.str [c]]
  | .num ds :: rest =>
    if c.isDigit then .num (c :: ds) :: rest else .str [c] :: .num ds :: rest
  | .str s :: rest =>
    if c.isDigit then .num [c] :: .str s :: rest else .str (c :: s) :: rest

/-- Tokenize a character list into alternating text/number chunks. -/
def tokenize (cs : List Char) : List NChunk := cs.foldr consTok []

/-- natsort's sort key: the chunk tuple, with an empty text chunk prepended
when the string starts with a digit (so every key starts with a text chunk and
compared positions always hold chunks of the same kind). -/
def natKey (s : String) : List NChunk :=
  match tokenize s.toList with
  | .num ds :: rest => .str [] :: .num ds :: rest
  | t => t

/-- Numeric value of a digit run (Python `int`); leading zeros are dropped. -/
def digitsVal (ds : List Char) : Nat :=
  ds.foldl (fun a c => a * 10 + (c.toNat - 48)) 0

/-- Comparison of chunks: text by code points, numbers by value.  Mixed kinds
cannot meet at the same position of two natsort keys (both alternate starting
with text), so that case is fixed arbitrarily. -/
def chunkCmp : NChunk → NChunk → Ordering
  | .str a, .str b => listCmp charCmp a b
  | .num a, .num b => natCompare (digitsVal a) (digitsVal b)
  | .str _, .num _ => .lt
  | .num _, .str _ => .gt

/-- Natural-order comparison of two strings via their natsort keys. -/
def natCmpKey (a b : String) : Ordering := listCmp chunkCmp (natKey a) (natKey b)

/-- `a` sorts at or before `b` in natural descending order: key of `a` is
greater than or equal to key of `b`. -/
def natGEb (a b : String) : Bool :=
  match natCmpKey a b with
  | .lt => false
  | _ => true

/-- Stable insertion of an element into a list: it goes in front of the first
element it relates to by `le`. -/
def insertLe (le : α → α → Bool) (a : α) : List α → List α
  | [] => [a]
  | b :: bs => if le a b then a :: b :: bs else b :: insertLe le a bs

/-- Stable insertion sort by `le` (elements related both ways keep their
original relative order, as Python's `sorted` guarantees). -/
def sortLe (le : α → α → Bool) : List α → List α
  | [] => []
  | a :: rest => insertLe le a (sortLe le rest)

/-- `natsorted(l, reverse=True)`: stable descending natural sort. -/
def natsorted_rev (l : List String) : List String := sortLe natGEb l

/-! ### Order-theoretic facts about the natural ordering -/

theorem natCompare_swap (m n : Nat) : natCompare n m = (natCompare m n).swap := by
  by_cases h1 : m < n <;> by_cases h2 : n < m <;>
    simp [natCompare, h1, h2, Ordering.swap] <;> omega

theorem natCompare_eq_iff (m n : Nat) : natCompare m n = .eq ↔ m = n := by
  by_cases h1 : m < n <;> by_cases h2 : n < m <;>
    simp [natCompare, h1, h2] <;> omega

theorem natCompare_lt_iff (m n : Nat) : natCompare m n = .lt ↔ m < n := by
  by_cases h1 : m < n <;> by_cases h2 : n < m <;>
    simp [natCompare, h1, h2] <;> omega

theorem natCompare_congr {m n : Nat} (h : natCompare m n = .eq) (k : Nat) :
    natCompare m k = natCompare n k := by
  rw [(natCompare_eq_iff m n).mp h]

theorem natCompare_lt_trans {a b c : Nat} (h₁ : natCompare a b = .lt)
    (h₂ : natCompare b c = .lt) : natCompare a c = .lt := by
  rw [natCompare_lt_iff] at *
  omega

theorem charCmp_swap (a b : Char) : charCmp b a = (charCmp a b).swap :=
  natCompare_swap _ _

theorem charCmp_congr {a b : Char} (h : charCmp a b = .eq) (c : Char) :
    charCmp a c = charCmp b c := natCompare_congr h _

theorem charCmp_lt_trans {a b c : Char} (h₁ : charCmp a b = .lt)
    (h₂ : charCmp b c = .lt) : charCmp a c = .lt := natCompare_lt_trans h₁ h₂

theorem listCmp_swap (cmp : α → α → Ordering)
    (hswap : ∀ a b, cmp b a = (cmp a b).swap) :
    ∀ l₁ l₂, listCmp cmp l₂ l₁ = (listCmp cmp l₁ l₂).swap
  | [], [] => rfl
  | [], _ :: _ => rfl
  | _ :: _, [] => rfl
  | a :: l₁, b :: l₂ => by
    simp only [listCmp, hswap a b]
    cases h : cmp a b <;>
      simp [h, Ordering.swap, listCmp_swap cmp hswap l₁ l₂]

theorem listCmp_congr (cmp : α → α → Ordering)
    (hcongr : ∀ {a b : α}, cmp a b = .eq → ∀ c, cmp a c = cmp b c) :
    ∀ {l₁ l₂ : List α}, listCmp cmp l₁ l₂ = .eq →
      ∀ l₃, listCmp cmp l₁ l₃ = listCmp cmp l₂ l₃
  | [], [], _, _ => rfl
  | [], _ :: _, h, _ => absurd h (by simp [listCmp])
  | _ :: _, [], h, _ => absurd h (by simp [listCmp])
  | a :: l₁, b :: l₂, h, l₃ => by
    simp only [listCmp] at h
    cases hab : cmp a b <;> simp [hab] at h
    cases l₃ with
    | nil => rfl
    | cons c l₃ =>
      simp only [listCmp, hcongr hab c]
      cases cmp b c <;> simp [listCmp_congr cmp hcongr h l₃]

theorem listCmp_lt_trans (cmp : α → α → Ordering)
    (hswap : ∀ a b, cmp b a = (cmp a b).swap)
    (hcongr : ∀ {a b : α}, cmp a b = .eq → ∀ c, cmp a c = cmp b c)
    (hlt : ∀ {a b c : α}, cmp a b = .lt → cmp b c = .lt → cmp a c = .lt) :
    ∀ {l₁ l₂ l₃ : List α}, listCmp cmp l₁ l₂ = .lt →
      listCmp cmp l₂ l₃ = .lt → listCmp cmp l₁ l₃ = .lt
  | [], [], _, h₁, _ => absurd h₁ (by simp [listCmp])
  | [], _ :: _, [], _, h₂ => absurd h₂ (by simp [listCmp])
  | [], _ :: _, _ :: _, _, _ => rfl
  | _ :: _, [], _, h₁, _ => absurd h₁ (by simp [listCmp])
  | _ :: _, _ :: _, [], _, h₂ => absurd h₂ (by simp [listCmp])
  | a :: l₁, b :: l₂, c :: l₃, h₁, h₂ => by
    simp only [listCmp] at h₁ h₂ ⊢
    cases hab : cmp a b <;> simp [hab] at h₁
    case lt =>
      cases hbc : cmp b c <;> simp [hbc] at h₂
      case lt => simp [hlt hab hbc]
      case eq =>
        have hba : cmp b a = Ordering.gt := by rw [hswap a b, hab]; rfl
        have hca : cmp c a = Ordering.gt := by rw [← hcongr hbc a]; exact hba
        have hac : cmp a c = Ordering.lt := by
          rw [hswap c a, hca]
          rfl
        simp [hac]
    case eq =>
      cases hbc : cmp b c <;> simp [hbc] at h₂
      case lt => simp [hcongr hab c, hbc]
      case eq =>
        simp [hcongr hab c, hbc]
        exact listCmp_lt_trans cmp hswap hcongr hlt h₁ h₂

theorem listCmp_self (cmp : α → α → Ordering) (hself : ∀ a, cmp a a = .eq) :
    ∀ l : List α, listCmp cmp l l = .eq
  | [] => rfl
  | a :: l => by simp [listCmp, hself a, listCmp_self cmp hself l]

theorem charCmp_self (a : Char) : charCmp a a = .eq := by
  simp [charCmp, natCompare]

theorem chunkCmp_swap (a b : NChunk) : chunkCmp b a = (chunkCmp a b).swap := by
  cases a <;> cases b <;> simp only [chunkCmp, Ordering.swap]
  · exact listCmp_swap charCmp charCmp_swap _ _
  · exact natCompare_swap _ _

theorem chunkCmp_self (a : NChunk) : chunkCmp a a = .eq := by
  cases a
  · exact listCmp_self charCmp charCmp_self _
  · simp [chunkCmp, natCompare]

theorem chunkCmp_congr {a b : NChunk} (h : chunkCmp a b = .eq) (c : NChunk) :
    chunkCmp a c = chunkCmp b c := by
  cases a <;> cases b <;> simp [chunkCmp] at h <;> cases c <;> simp [chunkCmp]
  case str.str.str s₁ s₂ s₃ =>
    exact listCmp_congr charCmp (fun hx c => charCmp_congr hx c) h s₃
  case num.num.num d₁ d₂ d₃ =>
    exact natCompare_congr h _

theorem chunkCmp_lt_trans {a b c : NChunk} (h₁ : chunkCmp a b = .lt)
    (h₂ : chunkCmp b c = .lt) : chunkCmp a c = .lt := by
  cases a <;> cases b <;> cases c <;> simp [chunkCmp] at h₁ h₂ ⊢
  case str.str.str =>
    exact listCmp_lt_trans charCmp charCmp_swap
      (fun hx c => charCmp_congr hx c) (fun hx hy => charCmp_lt_trans hx hy) h₁ h₂
  case num.num.num => exact natCompare_lt_trans h₁ h₂

theorem natCmpKey_swap (a b : String) : natCmpKey b a = (natCmpKey a b).swap :=
  listCmp_swap chunkCmp chunkCmp_swap _ _

theorem natCmpKey_lt_trans {a b c : String} (h₁ : natCmpKey a b = .lt)
    (h₂ : natCmpKey b c = .lt) : natCmpKey a c = .lt :=
  listCmp_lt_trans chunkCmp chunkCmp_swap (fun hx c => chunkCmp_congr hx c)
    (fun hx hy => chunkCmp_lt_trans hx hy) h₁ h₂

theorem natCmpKey_congr {a b : String} (h : natCmpKey a b = .eq) (c : String) :
    natCmpKey a c = natCmpKey b c :=
  listCmp_congr chunkCmp (fun hx c => chunkCmp_congr hx c) h _

theorem natCmpKey_self (a : String) : natCmpKey a a = .eq :=
  listCmp_self chunkCmp chunkCmp_self _

theorem natGEb_iff (a b : String) : natGEb a b = true ↔ natCmpKey a b ≠ .lt := by
  unfold natGEb
  cases natCmpKey a b <;> simp

theorem natGEb_refl (a : String) : natGEb a a = true := by
  rw [natGEb_iff, natCmpKey_self]
  simp

theorem natGEb_total (a b : String) : natGEb a b = true ∨ natGEb b a = true := by
  rw [natGEb_iff, natGEb_iff]
  cases h : natCmpKey a b
  · right
    rw [natCmpKey_swap a b, h]
    simp [Ordering.swap]
  · left; simp
  · left; simp

theorem natGEb_trans {a b c : String} (h₁ : natGEb a b = true)
    (h₂ : natGEb b c = true) : natGEb a c = true := by
  rw [natGEb_iff] at h₁ h₂ ⊢
  intro hac
  cases hab : natCmpKey a b
  · exact h₁ hab
  · rw [natCmpKey_congr hab c] at hac
    exact h₂ hac
  · cases hbc : natCmpKey b c
    · exact h₂ hbc
    · have hca : natCmpKey b a = natCmpKey c a := natCmpKey_congr hbc a
      have hba : natCmpKey b a = Ordering.lt := by
        rw [natCmpKey_swap a b, hab]; rfl
      have hca' : natCmpKey c a = Ordering.gt := by
        rw [natCmpKey_swap a c, hac]; rfl
      rw [hba] at hca
      rw [hca'] at hca
      exact absurd hca (by simp)
    · have hcb : natCmpKey c b = Ordering.lt := by
        rw [natCmpKey_swap b c, hbc]; rfl
      have hba : natCmpKey b a = Ordering.lt := by
        rw [natCmpKey_swap a b, hab]; rfl
      have hca : natCmpKey c a = Ordering.lt := natCmpKey_lt_trans hcb hba
      have : natCmpKey c a = Ordering.gt := by
        rw [natCmpKey_swap a c, hac]; rfl
      rw [hca] at this
      exact absurd this (by simp)

/-! ### Stable insertion sort lemmas -/

theorem mem_insertLe (le : α → α → Bool) (a x : α) :
    ∀ l : List α, x ∈ insertLe le a l ↔ x = a ∨ x ∈ l
  | [] => by simp [insertLe]
  | b :: bs => by
    simp only [insertLe]
    by_cases h : le a b = true
    · simp [h]
    · simp only [if_neg h, List.mem_cons, mem_insertLe le a x bs]
      tauto

theorem perm_insertLe (le : α → α → Bool) (a : α) :
    ∀ l : List α, (insertLe le a l).Perm (a :: l)
  | [] => List.Perm.refl _
  | b :: bs => by
    simp only [insertLe]
    by_cases h : le a b = true
    · simp [h]
    · rw [if_neg h]
      exact ((perm_insertLe le a bs).cons b).trans (List.Perm.swap a b bs)

theorem perm_sortLe (le : α → α → Bool) :
    ∀ l : List α, (sortLe le l).Perm l
  | [] => List.Perm.refl _
  | a :: rest =>
    (perm_insertLe le a (sortLe le rest)).trans
      ((perm_sortLe le rest).cons a)

theorem pairwise_insertLe (le : α → α → Bool)
    (htotal : ∀ a b : α, le a b = true ∨ le b a = true)
    (htrans : ∀ a b c : α, le a b = true → le b c = true → le a c = true)
    (a : α) :
    ∀ l : List α, l.Pairwise (fun x y => le x y = true) →
      (insertLe le a l).Pairwise (fun x y => le x y = true)
  | [], _ => by simp [insertLe]
  | b :: bs, h => by
    simp only [insertLe]
    rcases List.pairwise_cons.mp h with ⟨hb, hbs⟩
    by_cases hab : le a b = true
    · rw [if_pos hab]
      refine List.pairwise_cons.mpr ⟨?_, h⟩
      intro x hx
      rcases List.mem_cons.mp hx with heq | hx
      · subst heq
        exact hab
      · exact htrans a b x hab (hb x hx)
    · rw [if_neg hab]
      refine List.pairwise_cons.mpr ⟨?_, pairwise_insertLe le htotal htrans a bs hbs⟩
      intro x hx
      rcases (mem_insertLe le a x bs).mp hx with heq | hx
      · rw [heq]
        rcases htotal a b with h' | h'
        · exact absurd h' hab
        · exact h'
      · exact hb x hx

theorem pairwise_sortLe (le : α → α → Bool)
    (htotal : ∀ a b : α, le a b = true ∨ le b a = true)
    (htrans : ∀ a b c : α, le a b = true → le b c = true → le a c = true) :
    ∀ l : List α, (sortLe le l).Pairwise (fun x y => le x y = true)
  | [] => List.Pairwise.nil
  | a :: rest =>
    pairwise_insertLe le htotal htrans a (sortLe le rest)
      (pairwise_sortLe le htotal htrans rest)

theorem head_dominates_sortLe (le : α → α → Bool)
    (htotal : ∀ a b : α, le a b = true ∨ le b a = true)
    (htrans : ∀ a b c : α, le a b = true → le b c = true → le a c = true)
    (l : List α) (h : α) (t : List α) (hsort : sortLe le l = h :: t) :
    ∀ x ∈ l, le h x = true := by
  intro x hx
  have hmem : x ∈ sortLe le l := (perm_sortLe le l).mem_iff.mpr hx
  rw [hsort] at hmem
  rcases List.mem_cons.mp hmem with rfl | hmem
  · rcases htotal x x with h' | h' <;> exact h'
  · have hp := pairwise_sortLe le htotal htrans l
    rw [hsort] at hp
    exact (List.pairwise_cons.mp hp).1 x hmem

/-! ## Registry Tag Resolver (image_utils.py)

`filter_and_sort_tags` keeps the tags matching
`^v?\d+\.\d+\.\d+(?:\.\d+)?$` (optional leading `v`, then 3 or 4
dot-separated digit groups), returns `None` when nothing matches, and
otherwise the survivors natural-sorted descending. -/

/-- Match one `\d+` group; returns the remaining characters on success. -/
def matchNumGroup (cs : List Char) : Option (List Char) :=
  let ds := cs.takeWhile Char.isDigit
  if ds.isEmpty then none else some (cs.dropWhile Char.isDigit)

/-- Match `\d+\.\d+\.\d+(?:\.\d+)?$`. -/
def version_tag_core (cs : List Char) : Bool :=
  match matchNumGroup cs with
  | none => false
  | some r₁ =>
    match r₁ with
    | '.' :: r₁' =>
      match matchNumGroup r₁' with
      | none => false
      | some r₂ =>
        match r₂ with
        | '.' :: r₂' =>
          match matchNumGroup r₂' with
          | none => false
          | some r₃ =>
            match r₃ with
            | [] => true
            | '.' :: r₃' =>
              match matchNumGroup r₃' with
              | none => false
              | some r₄ => r₄.isEmpty
            | _ => false
        | _ => false
    | _ => false

/-- The compiled pattern `^v?\d+\.\d+\.\d+(?:\.\d+)?$` of
`filter_and_sort_tags`: with a leading `v` the rest must be the digit
groups, otherwise the whole string must be. -/
def version_tag_matches (s : String) : Bool :=
  match s.toList with
  | 'v' :: rest => version_tag_core rest
  | cs => version_tag_core cs

/-- `filter_and_sort_tags(tags)`: `None` when no tag matches the pattern,
otherwise the matching tags natural-sorted descending. -/
def filter_and_sort_tags (tags : List String) : Option (List String) :=
  let filtered_tags := tags.filter version_tag_matches
  if filtered_tags.isEmpty then none else some (natsorted_rev filtered_tags)

/-- Python's single-character membership test `c in s` (used as
`"/" not in image`, `"." in parts[0]`). -/
def str_contains (s : String) (c : Char) : Bool := s.toList.contains c

/-- Split a character list at every occurrence of `sep` (Python
`s.split(sep)` for a one-character separator: `"".split` gives `[""]`,
adjacent separators give empty groups). -/
def splitChar (sep : Char) : List Char → List (List Char)
  | [] => [[]]
  | c :: cs =>
    match splitChar sep cs with
    | [] => [[]]
    | g :: gs => if c == sep then [] :: g :: gs else (c :: g) :: gs

/-- Python `s.split(sep)` for the one-character separators the code uses
(`"."`, `"/"`). -/
def py_split (sep : Char) (s : String) : List String :=
  (splitChar sep s.toList).map (fun g => String.mk g)

/-- Python `sep.join(parts)`. -/
def py_join (sep : String) : List String → String
  | [] => ""
  | [x] => x
  | x :: xs => x ++ sep ++ py_join sep xs

/-- Python `s.endswith(suffix)`. -/
def str_endsWith (s suffix : String) : Bool :=
  suffix.toList.isSuffixOf s.toList

/-- Python `s.startswith(prefix)`. -/
def str_startsWith (s pre : String) : Bool :=
  pre.toList.isPrefixOf s.toList

/-- `detect_registry_and_normalize(image_name)`: the first `/`-segment is the
registry when it contains a dot, else the public Docker registry; bare Docker
repositories get the `library/` prefix. -/
def detect_registry_and_normalize (image_name : String) : String × String :=
  let parts := py_split '/' image_name
  let p :=
    if parts.length > 1 && str_contains (parts.headD "") '.' then
      (parts.headD "", py_join "/" parts.tail)
    else
      ("docker.io", py_join "/" parts)
  let name :=
    if p.1 == "docker.io" && !(str_startsWith p.2 "library/")
        && (py_split '/' p.2).length == 1 then
      "library/" ++ p.2
    else p.2
  (p.1, name)

/-- Python's `s.rsplit(":", 1)` followed by unpacking into two names: splits
at the last colon; with no colon the unpacking raises `ValueError`, modelled
as `none`. -/
def rsplitColon (s : String) : Option (String × String) :=
  let rev := s.toList.reverse
  if rev.contains ':' then
    some (String.mk ((rev.dropWhile (fun c => c != ':')).tail).reverse,
      String.mk (rev.takeWhile (fun c => c != ':')).reverse)
  else none

/-- `parse_image(image)`: prepend `docker.io/` when there is no slash, then
split name and tag at the last colon (`none` = unpacking `ValueError`). -/
def parse_image (image : String) : Option (String × String) :=
  let image := if str_contains image '/' then image else "docker.io/" ++ image
  rsplitColon image

/-- A Helm chart repository index (`index.yaml`): chart name to the version
fields of its entry list; `none` stands for a missing key (`KeyError` on
subscript access, `[]` under `.get(name, [])`). -/
structure ChartIndex where
  entries : String → Option (List String)

/-- The network environment of one run: what each registry tag listing and
each chart-index fetch would yield.  `none` models a
`requests.RequestException` surviving the retries (the fetch helpers catch
it, notify and return `None`).  GHCR pagination is collapsed into the final
collected tag list. -/
structure World where
  docker_tags : String → Option (List String)
  ghcr_tags : String → Option (List String)
  quay_tags : String → Option (List String)
  chart_index : String → Option ChartIndex

/-- Exceptions the Python detectors can raise past their own frame. -/
inductive RunError where
  /-- `ValueError` from unpacking `rsplit(":", 1)` of a tagless image. -/
  | valueErrorUnpack
  /-- `raise ValueError(f"Unsupported registry: ...")` in `get_latest_image_tag`. -/
  | unsupportedRegistry (registry : String)
  /-- `KeyError` from `repository_index["entries"][name]`. -/
  | keyError (k : String)
  /-- `IndexError` from `[0]` on an empty list. -/
  | indexError
deriving DecidableEq

/-- Shared tail of `get_latest_image_tag`: `if not tags: return None`,
then filter-and-sort, then the first element. -/
def latest_from_tags (fetched : Option (List String)) : Option String :=
  match fetched with
  | none => none
  | some tags =>
    if tags.isEmpty then none
    else
      match filter_and_sort_tags tags with
      | none => none
      | some [] => none
      | some (h :: _) => some h

/-- `get_latest_image_tag(image_name)`: dispatch on the detected registry;
an unsupported registry raises `ValueError` (it is NOT caught by the
per-file loops). -/
def get_latest_image_tag (w : World) (image_name : String) :
    Except RunError (Option String) :=
  let rn := detect_registry_and_normalize image_name
  if rn.1 == "docker.io" then .ok (latest_from_tags (w.docker_tags rn.2))
  else if rn.1 == "ghcr.io" then .ok (latest_from_tags (w.ghcr_tags rn.2))
  else if rn.1 == "quay.io" then .ok (latest_from_tags (w.quay_tags rn.2))
  else .error (.unsupportedRegistry rn.1)

/-- A parsed deployment manifest, reduced to
`["spec"]["template"]["spec"]["containers"]`, each container to its
`image` string. -/
structure DeploymentDoc where
  containers : List String
deriving DecidableEq

/-- The record `check_for_image_update` returns (it also carries the mutated
document, because the container's image field was rewritten in place before
returning). -/
structure ImageUpdate where
  deployment_file : DeploymentDoc
  image_name : String
  current_tag : String
  new_tag : String
deriving DecidableEq

/-- The container loop of `check_for_image_update`, with the in-place
mutation made explicit: the result carries the final container list next to
the optional `(image_name, current_tag, new_tag)` of the first rewritten
container.  A failed resolution (`new_tag is None`) aborts with the list
unchanged; an equal tag moves on to the next container. -/
def check_containers (w : World) :
    List String → Except RunError (List String × Option (String × String × String))
  | [] => .ok ([], none)
  | img :: rest =>
    match parse_image img with
    | none => .error .valueErrorUnpack
    | some nt =>
      match get_latest_image_tag w nt.1 with
      | .error e => .error e
      | .ok none => .ok (img :: rest, none)
      | .ok (some new_tag) =>
        if new_tag == nt.2 then
          match check_containers w rest with
          | .error e => .error e
          | .ok (rest', r) => .ok (img :: rest', r)
        else
          .ok ((nt.1 ++ ":" ++ new_tag) :: rest, some (nt.1, nt.2, new_tag))

/-- `check_for_image_update(deployment_file)`: first container with a newer
resolved tag gets its image rewritten and a record returned; the returned
document is the (possibly) mutated one. -/
def check_for_image_update (w : World) (deployment_file : DeploymentDoc) :
    Except RunError (DeploymentDoc × Option ImageUpdate) :=
  match check_containers w deployment_file.containers with
  | .error e => .error e
  | .ok (cs, none) => .ok (⟨cs⟩, none)
  | .ok (cs, some r) => .ok (⟨cs⟩, some ⟨⟨cs⟩, r.1, r.2.1, r.2.2⟩)

/-! ## Chart Version Resolver (chart_utils.py) -/

/-- Is `needle` a contiguous substring of the character list (Python's
`needle in s`)? -/
def substrB (needle : List Char) : List Char → Bool
  | [] => needle.isEmpty
  | c :: cs => needle.isPrefixOf (c :: cs) || substrB needle cs

/-- The prerelease filter of both chart checkers: keep `x` iff
`"dev" not in x and "alpha" not in x and "beta" not in x`
(case-sensitive literal substring tests). -/
def chart_version_keep (x : String) : Bool :=
  !(substrB "dev".toList x.toList) && !(substrB "alpha".toList x.toList)
    && !(substrB "beta".toList x.toList)

/-- `chart_repo` with trailing slash ensured, plus `index.yaml`: the URL the
chart checkers fetch. -/
def repo_index_url (repository : String) : String :=
  (if str_endsWith repository "/" then repository else repository ++ "/")
    ++ "index.yaml"

/-- One entry of a `Chart.yaml` dependency list. -/
structure Dependency where
  name : String
  repository : String
  version : String
deriving DecidableEq

/-- A parsed `Chart.yaml`, reduced to `.get("dependencies", [])`. -/
structure ChartDoc where
  dependencies : List Dependency
deriving DecidableEq

/-- The record `check_for_chart_update` returns. -/
structure ChartUpdate where
  chart_file : ChartDoc
  original_version : String
  new_version : String
  chart_name : String
deriving DecidableEq

/-- The dependency loop of `check_for_chart_update`, with the in-place
version mutation made explicit: returns the final dependency list and the
optional `(original_version, new_version, chart_name)` of the first updated
dependency.  A failed index fetch `continue`s, an empty filtered version
list or an unchanged head version moves to the next dependency. -/
def check_dependencies (w : World) :
    List Dependency → List Dependency × Option (String × String × String)
  | [] => ([], none)
  | dep :: rest =>
    match w.chart_index (repo_index_url dep.repository) with
    | none =>
      let pr := check_dependencies w rest
      (dep :: pr.1, pr.2)
    | some idx =>
      match natsorted_rev
          (((idx.entries dep.name).getD []).filter chart_version_keep) with
      | [] =>
        let pr := check_dependencies w rest
        (dep :: pr.1, pr.2)
      | v :: _ =>
        if v == dep.version then
          let pr := check_dependencies w rest
          (dep :: pr.1, pr.2)
        else
          ({ dep with version := v } :: rest, some (dep.version, v, dep.name))

/-- `check_for_chart_update(chart_file)`: returns the (possibly mutated)
document and the record of the first dependency with an update, if any.
Every failure here is soft: the function itself never raises. -/
def check_for_chart_update (w : World) (chart_file : ChartDoc) :
    ChartDoc × Option ChartUpdate :=
  match check_dependencies w chart_file.dependencies with
  | (deps, none) => (⟨deps⟩, none)
  | (deps, some r) => (⟨deps⟩, some ⟨⟨deps⟩, r.1, r.2.1, r.2.2⟩)

/-- One element of a kustomization's `helmCharts` list.  `releaseName` and
the namespace are read with `.get` (so may be absent); `name`, `repo` and
`version` are subscripted (the program's data always has them). -/
structure HelmChart where
  name : String
  repo : String
  version : String
  releaseName : Option String
  chart_namespace : Option String
deriving DecidableEq

/-- A kustomization document that has a `helmCharts` key. -/
structure KustomizeDoc where
  helmCharts : List HelmChart
deriving DecidableEq

/-- The record `check_for_helm_chart_update` returns. -/
structure KustomizeUpdate where
  kustomize_file : KustomizeDoc
  original_version : String
  new_version : String
  release_name : Option String
deriving DecidableEq

/-- `check_for_helm_chart_update(kustomize_file)`: looks only at
`helmCharts[0]` (`IndexError` on an empty list); skips charts deployed to
the `databases` namespace; a failed index fetch is soft (`return`);
a chart name missing from the index raises `KeyError`; `remote_versions[0]`
on an empty filtered list raises `IndexError`. -/
def check_for_helm_chart_update (w : World) (kustomize_file : KustomizeDoc) :
    Except RunError (KustomizeDoc × Option KustomizeUpdate) :=
  match kustomize_file.helmCharts with
  | [] => .error .indexError
  | deployed_chart :: restCharts =>
    if deployed_chart.chart_namespace == some "databases" then
      .ok (kustomize_file, none)
    else
      match w.chart_index (repo_index_url deployed_chart.repo) with
      | none => .ok (kustomize_file, none)
      | some idx =>
        match idx.entries deployed_chart.name with
        | none => .error (.keyError deployed_chart.name)
        | some listed =>
          match natsorted_rev (listed.filter chart_version_keep) with
          | [] => .error .indexError
          | v :: _ =>
            if v == deployed_chart.version then .ok (kustomize_file, none)
            else
              let kf : KustomizeDoc :=
                ⟨{ deployed_chart with version := v } :: restCharts⟩
              .ok (kf, some ⟨kf, deployed_chart.version, v,
                deployed_chart.releaseName⟩)

/-! ## Per-file detection loops (file_utils.py / main.py)

Each loop decodes a file, `yaml.safe_load`s it (`parsed = none` models a
`yaml.YAMLError`, the only exception the loops catch) and runs the matching
checker; records get the file's `path` and `sha` attached.  Any other
exception from a checker escapes the loop. -/

/-- A repository file as the loops see it: path, blob sha, and the outcome of
`yaml.safe_load` on its decoded content (`none` = `yaml.YAMLError`). -/
structure RawFile (α : Type) where
  path : String
  sha : String
  parsed : Option α
deriving DecidableEq

/-- A kustomization as parsed by the kustomize loop: `helmCharts` may be
absent (the loop checks `"helmCharts" in parsed_file`). -/
structure KustomizeParsed where
  helmCharts : Option (List HelmChart)
deriving DecidableEq

/-- An image update record extended with the file's `path` and `sha`. -/
structure ImageUpdateRec where
  deployment_file : DeploymentDoc
  image_name : String
  current_tag : String
  new_tag : String
  path : String
  sha : String
deriving DecidableEq

/-- A chart-dependency update record extended with `path` and `sha`. -/
structure ChartUpdateRec where
  chart_file : ChartDoc
  original_version : String
  new_version : String
  chart_name : String
  path : String
  sha : String
deriving DecidableEq

/-- A kustomize update record extended with `path` and `sha`. -/
structure KustomizeUpdateRec where
  kustomize_file : KustomizeDoc
  original_version : String
  new_version : String
  release_name : Option String
  path : String
  sha : String
deriving DecidableEq

/-- `deployment_files_find_image_updates(deployment_files)`: YAML errors skip
the file; a `ValueError` from `check_for_image_update` escapes and aborts the
whole loop. -/
def deployment_files_find_image_updates (w : World) :
    List (RawFile DeploymentDoc) → Except RunError (List ImageUpdateRec)
  | [] => .ok []
  | f :: fs =>
    match f.parsed with
    | none => deployment_files_find_image_updates w fs
    | some doc =>
      match check_for_image_update w doc with
      | .error e => .error e
      | .ok (_, none) => deployment_files_find_image_updates w fs
      | .ok (_, some u) =>
        match deployment_files_find_image_updates w fs with
        | .error e => .error e
        | .ok rest =>
          .ok (⟨u.deployment_file, u.image_name, u.current_tag, u.new_tag,
            f.path, f.sha⟩ :: rest)

/-- `kustomize_files_find_helm_charts_with_updates(kustomize_files)`: YAML
errors and files without a `helmCharts` key are skipped; `KeyError` /
`IndexError` from `check_for_helm_chart_update` escape and abort the loop. -/
def kustomize_files_find_helm_charts_with_updates (w : World) :
    List (RawFile KustomizeParsed) → Except RunError (List KustomizeUpdateRec)
  | [] => .ok []
  | f :: fs =>
    match f.parsed with
    | none => kustomize_files_find_helm_charts_with_updates w fs
    | some parsed =>
      match parsed.helmCharts with
      | none => kustomize_files_find_helm_charts_with_updates w fs
      | some charts =>
        match check_for_helm_chart_update w ⟨charts⟩ with
        | .error e => .error e
        | .ok (_, none) => kustomize_files_find_helm_charts_with_updates w fs
        | .ok (_, some u) =>
          match kustomize_files_find_helm_charts_with_updates w fs with
          | .error e => .error e
          | .ok rest =>
            .ok (⟨u.kustomize_file, u.original_version, u.new_version,
              u.release_name, f.path, f.sha⟩ :: rest)

/-- `chart_files_find_chart_updates(chart_files)`: YAML errors are skipped
and `check_for_chart_update` never raises, so this loop always completes. -/
def chart_files_find_chart_updates (w : World) :
    List (RawFile ChartDoc) → List ChartUpdateRec
  | [] => []
  | f :: fs =>
    match f.parsed with
    | none => chart_files_find_chart_updates w fs
    | some doc =>
      match check_for_chart_update w doc with
      | (_, none) => chart_files_find_chart_updates w fs
      | (_, some u) =>
        ⟨u.chart_file, u.original_version, u.new_version, u.chart_name,
          f.path, f.sha⟩ :: chart_files_find_chart_updates w fs

/-! ## Repository Tree Scanner (find_kustomize_and_deployment_files)

The GitHub contents API is modelled as a tree: each directory node carries
what `get_contents` would return for it — either a bare single item or a
list (the code normalizes a non-list result to a one-element list before
recursing).  Entries whose `type` is neither `"file"` nor `"dir"` are
represented by `other` and are skipped by every branch, as in the source. -/

mutual

inductive FsTree where
  | file (name : String)
  | dir (name : String) (contents : DirListing)
  | other (type : String) (name : String)

inductive DirListing where
  | single (t : FsTree)
  | multiple (ts : List FsTree)

end

/-- `if not isinstance(folder_contents, list): folder_contents = [folder_contents]`. -/
def normalize_listing : DirListing → List FsTree
  | .single t => [t]
  | .multiple ts => ts

/-- Append the three file lists componentwise (the Python code appends to
three shared accumulator lists while recursing depth-first). -/
def catFiles (a b : List String × List String × List String) :
    List String × List String × List String :=
  (a.1 ++ b.1, a.2.1 ++ b.2.1, a.2.2 ++ b.2.2)

theorem sizeOf_normalize_listing (c : DirListing) :
    sizeOf (normalize_listing c) ≤ 1 + sizeOf c := by
  cases c <;> simp [normalize_listing] <;> omega

/-- `find_kustomize_and_deployment_files(argo_repo, repo_files, ...)`:
classify each entry (`kustomization.yaml` exact, `deployment.yaml` suffix,
`Chart.yaml` exact), and recurse into every directory not named
`overlays`. -/
def find_kustomize_and_deployment_files :
    List FsTree → List String × List String × List String
  | [] => ([], [], [])
  | FsTree.file name :: rest =>
    catFiles
      ((if name == "kustomization.yaml" then [name] else []),
       (if str_endsWith name "deployment.yaml" then [name] else []),
       (if name == "Chart.yaml" then [name] else []))
      (find_kustomize_and_deployment_files rest)
  | FsTree.dir name contents :: rest =>
    if name != "overlays" then
      catFiles (find_kustomize_and_deployment_files (normalize_listing contents))
        (find_kustomize_and_deployment_files rest)
    else
      find_kustomize_and_deployment_files rest
  | FsTree.other _ _ :: rest => find_kustomize_and_deployment_files rest
termination_by ts => sizeOf ts
decreasing_by
  all_goals simp_wf
  all_goals try omega
  have := sizeOf_normalize_listing contents
  omega

/-! ## Update Classifier / Policy (filters.py)

Both filters receive an update record and look at the two version/tag
strings; they are embedded as functions of those two strings. -/

/-- `image_updates_with_minor_or_patch_filter(image_update)` applied to the
record's `current_tag` and `new_tag`. -/
def image_updates_with_minor_or_patch_filter (current_tag new_tag : String) :
    Bool :=
  let split_original_tag := py_split '.' current_tag
  let split_new_tag := py_split '.' new_tag
  if split_original_tag.length < 2 || split_new_tag.length < 2 then false
  else if split_original_tag.headD "" != split_new_tag.headD "" then false
  else true

/-- `chart_updates_with_minor_or_patch_filter(helm_chart_update)` applied to
the record's `original_version` and `new_version`. -/
def chart_updates_with_minor_or_patch_filter
    (original_version new_version : String) : Bool :=
  let split_original_version := py_split '.' original_version
  let split_new_version := py_split '.' new_version
  if split_original_version.headD "" != split_new_version.headD "" then false
  else true

/-! ## Reconciler (update_handlers.py `handle_updates`; main.py has the same
function verbatim)

Its interactions with GitHub and the notification sink are modelled as an
emitted effect trace: ensure-branch (the lookup-before-create of
`create_branch_for_updates` collapses into one idempotent effect),
one `update_file` per record (`commit_updates_to_branch`), create PR, merge
PR, and the notification.  Logging is not an effect. -/

inductive UpdateType where
  | KustomizeChart
  | Image
  | HelmChart
deriving DecidableEq

/-- An update object as `handle_updates` receives it: the dict shape tells
`commit_updates_to_branch` which message to build (`kustomize_file` /
`deployment_file` / `chart_file` key), carrying path, sha, display name and
new version/tag. -/
inductive CommitObj where
  | kustomize (path sha release_name new_version : String)
  | image (path sha image_name new_tag : String)
  | chart (path sha chart_name new_version : String)
deriving DecidableEq

/-- Observable side effects of the reconciler. -/
inductive Effect where
  | ensureBranch (branch : String)
  | updateFile (path message sha : String)
  | createPR (branch : String)
  | mergePR
  | notify (message : String)
deriving DecidableEq

/-- Everything except the notification mutates the repository. -/
def Effect.isMutation : Effect → Bool
  | .notify _ => false
  | _ => true

def CommitObj.path : CommitObj → String
  | .kustomize p _ _ _ => p
  | .image p _ _ _ => p
  | .chart p _ _ _ => p

def CommitObj.sha : CommitObj → String
  | .kustomize _ s _ _ => s
  | .image _ s _ _ => s
  | .chart _ s _ _ => s

/-- The commit message `commit_updates_to_branch` builds for each shape. -/
def commit_message : CommitObj → String
  | .kustomize _ _ release_name new_version =>
    "Bump " ++ release_name ++ " version to " ++ new_version
  | .image _ _ image_name new_tag =>
    "Bump " ++ image_name ++ " image tag to " ++ new_tag
  | .chart _ _ chart_name new_version =>
    "Bump " ++ chart_name ++ " version to " ++ new_version

/-- `commit_updates_to_branch(argo_repo, ref, files_needing_updates)`: one
`update_file` call per record, guarded by the recorded blob sha. -/
def commit_updates_to_branch (objs : List CommitObj) : List Effect :=
  objs.map fun o => Effect.updateFile o.path (commit_message o) o.sha

/-- The display name the notification pulls out of each record; the key read
depends on the update type (`release_name` / `image_name` / `chart_name`).
A shape mismatch would be a Python `KeyError`; `handle_updates` is only ever
called with records matching the type, so the fallback is unreachable. -/
def display_name : UpdateType → CommitObj → String
  | .KustomizeChart, .kustomize _ _ release_name _ => release_name
  | .Image, .image _ _ image_name _ => image_name
  | .HelmChart, .chart _ _ chart_name _ => chart_name
  | _, _ => ""

/-- The summary message `handle_updates` sends for a group. -/
def update_notification (update_type : UpdateType) (is_major : Bool)
    (objs : List CommitObj) : String :=
  let notification_type :=
    if is_major then "major version bumps on" else "versions"
  let lead := if is_major then "Created PR for" else "Updated"
  lead ++ " " ++ notification_type ++ " "
    ++ String.intercalate ", " (objs.map (display_name update_type))

/-- `handle_updates(repo, branch_name, dry_run, update_objects, update_type,
is_major)` as its effect trace: with `dry_run` no mutating call happens; in a
live run the branch is ensured, every record committed, one PR created, and
— only for a non-major group — immediately merged; the group notification is
sent in both modes. -/
def handle_updates (dry_run : Bool) (branch_name : String)
    (update_objects : List CommitObj) (update_type : UpdateType)
    (is_major : Bool) : List Effect :=
  (if dry_run then []
   else
     Effect.ensureBranch branch_name :: commit_updates_to_branch update_objects
       ++ [Effect.createPR branch_name]
       ++ (if is_major then [] else [Effect.mergePR]))
  ++ [Effect.notify (update_notification update_type is_major update_objects)]

/-! ## Claims -/

theorem beq_eq_decide_str (x y : String) : (x == y) = decide (x = y) := by
  by_cases h : x = y <;> simp [h]

/-- C1: the update policy classifier.  The chart filter is safe exactly when
the leading dot-segments of the two version strings are equal; the image
filter additionally classifies the update as risky whenever either tag has
fewer than 2 dot-segments, and otherwise is safe exactly when the leading
dot-segments are equal.  Quantified over every pair of strings. -/
theorem C1_update_policy_classifier (o n : String) :
    chart_updates_with_minor_or_patch_filter o n
      = ((py_split '.' o).headD "" == (py_split '.' n).headD "") ∧
    image_updates_with_minor_or_patch_filter o n
      = (decide (2 ≤ (py_split '.' o).length)
          && decide (2 ≤ (py_split '.' n).length)
          && ((py_split '.' o).headD "" == (py_split '.' n).headD "")) := by
  constructor
  · unfold chart_updates_with_minor_or_patch_filter
    by_cases h : (py_split '.' o).headD "" = (py_split '.' n).headD "" <;>
      simp [h, beq_eq_decide_str]
  · unfold image_updates_with_minor_or_patch_filter
    by_cases h1 : (py_split '.' o).length < 2 <;>
      by_cases h2 : (py_split '.' n).length < 2 <;>
      by_cases h : (py_split '.' o).headD "" = (py_split '.' n).headD "" <;>
      simp [h1, h2, h, beq_eq_decide_str] <;> omega

/-- C5: a Kustomize document whose first embedded chart targets the
`databases` namespace never produces an update record, and the document
comes back unmutated, whatever the chart repository index holds. -/
theorem C5_databases_namespace_never_updates (w : World) (chart : HelmChart)
    (rest : List HelmChart) (h : chart.chart_namespace = some "databases") :
    check_for_helm_chart_update w ⟨chart :: rest⟩
      = .ok (⟨chart :: rest⟩, none) := by
  simp [check_for_helm_chart_update, h]

def c5Chart : HelmChart :=
  { name := "postgres", repo := "https://charts.example", version := "1.0.0",
    releaseName := some "postgres", chart_namespace := some "databases" }

def c5World : World :=
  { docker_tags := fun _ => none, ghcr_tags := fun _ => none,
    quay_tags := fun _ => none,
    chart_index := fun _ => some ⟨fun _ => some ["9.9.9"]⟩ }

theorem C5_witness :
    check_for_helm_chart_update c5World ⟨[c5Chart]⟩ = .ok (⟨[c5Chart]⟩, none) :=
  C5_databases_namespace_never_updates c5World c5Chart [] rfl

theorem find_files_append (xs ys : List FsTree) :
    find_kustomize_and_deployment_files (xs ++ ys)
      = catFiles (find_kustomize_and_deployment_files xs)
          (find_kustomize_and_deployment_files ys) := by
  induction xs with
  | nil => simp [find_kustomize_and_deployment_files, catFiles]
  | cons t rest ih =>
    cases t with
    | file name =>
      simp [find_kustomize_and_deployment_files, ih, catFiles,
        List.append_assoc]
    | dir name contents =>
      by_cases h : name = "overlays"
      · simp [find_kustomize_and_deployment_files, h, ih]
      · simp [find_kustomize_and_deployment_files, h, ih, catFiles,
          List.append_assoc]
    | other ty nm => simp [find_kustomize_and_deployment_files, ih]

/-- C8: the repository tree scanner never returns anything from under a
directory named `overlays` (the whole subtree contributes nothing); files
are classified by exact name `kustomization.yaml`, suffix `deployment.yaml`
and exact name `Chart.yaml`; and a directory listing returned as a single
item is handled exactly like the one-element list it is normalized to. -/
theorem C8_repository_tree_scanner :
    (∀ (ts₁ ts₂ : List FsTree) (cs : DirListing),
       find_kustomize_and_deployment_files
           (ts₁ ++ FsTree.dir "overlays" cs :: ts₂)
         = find_kustomize_and_deployment_files (ts₁ ++ ts₂)) ∧
    (∀ name : String,
       find_kustomize_and_deployment_files [FsTree.file name]
         = ((if name = "kustomization.yaml" then [name] else []),
            (if str_endsWith name "deployment.yaml" then [name] else []),
            (if name = "Chart.yaml" then [name] else []))) ∧
    (∀ (name : String) (t : FsTree),
       find_kustomize_and_deployment_files
           [FsTree.dir name (DirListing.single t)]
         = find_kustomize_and_deployment_files
             [FsTree.dir name (DirListing.multiple [t])]) := by
  refine ⟨fun ts₁ ts₂ cs => ?_, fun name => ?_, fun name t => ?_⟩
  · rw [find_files_append, find_files_append]
    have hskip : find_kustomize_and_deployment_files
        (FsTree.dir "overlays" cs :: ts₂)
        = find_kustomize_and_deployment_files ts₂ := by
      simp [find_kustomize_and_deployment_files]
    rw [hskip]
  · by_cases h1 : name = "kustomization.yaml" <;>
      by_cases h2 : str_endsWith name "deployment.yaml" = true <;>
      by_cases h3 : name = "Chart.yaml" <;>
      simp [find_kustomize_and_deployment_files, catFiles, h1, h2, h3]
  · simp [find_kustomize_and_deployment_files, normalize_listing]

theorem filter_not_mutation_commits (objs : List CommitObj) :
    (commit_updates_to_branch objs).filter (fun e => !(e.isMutation)) = [] := by
  induction objs with
  | nil => rfl
  | cons o rest ih =>
    simp only [commit_updates_to_branch, List.map_cons, List.filter_cons] at ih ⊢
    simpa [Effect.isMutation] using ih

theorem filter_mutation_commits (objs : List CommitObj) :
    (commit_updates_to_branch objs).filter Effect.isMutation
      = commit_updates_to_branch objs := by
  induction objs with
  | nil => rfl
  | cons o rest ih =>
    simp only [commit_updates_to_branch, List.map_cons, List.filter_cons] at ih ⊢
    simpa [Effect.isMutation] using ih

theorem commits_are_mutations (objs : List CommitObj) :
    ∀ e ∈ commit_updates_to_branch objs, e.isMutation = true := by
  intro e he
  simp only [commit_updates_to_branch, List.mem_map] at he
  obtain ⟨o, _, rfl⟩ := he
  rfl

/-- C9: with the dry-run flag the reconciler performs no mutating call while
emitting exactly the notifications of the corresponding live run; with the
flag unset and a safe (non-major) group it ensures the branch, commits every
record, opens one pull request, merges it, and sends the summary. -/
theorem C9_dry_run_and_live_reconciler (branch_name : String)
    (objs : List CommitObj) (ty : UpdateType) (is_major : Bool) :
    (handle_updates true branch_name objs ty is_major).filter Effect.isMutation
        = [] ∧
    (handle_updates true branch_name objs ty is_major).filter
        (fun e => !(e.isMutation))
      = (handle_updates false branch_name objs ty is_major).filter
          (fun e => !(e.isMutation)) ∧
    handle_updates false branch_name objs ty false
      = Effect.ensureBranch branch_name :: commit_updates_to_branch objs
          ++ [Effect.createPR branch_name, Effect.mergePR,
              Effect.notify (update_notification ty false objs)] := by
  refine ⟨?_, ?_, ?_⟩
  · simp [handle_updates, Effect.isMutation]
  · cases is_major <;>
      simp [handle_updates, Effect.isMutation, List.filter_append,
        filter_not_mutation_commits] <;>
      intro e he <;>
      exact commits_are_mutations objs e he
  · simp [handle_updates]

theorem check_containers_none_unchanged (w : World) :
    ∀ (cs cs' : List String),
      check_containers w cs = .ok (cs', none) → cs' = cs := by
  intro cs
  induction cs with
  | nil =>
    intro cs' h
    simp [check_containers] at h
    simp [h]
  | cons img rest ih =>
    intro cs' h
    unfold check_containers at h
    split at h
    · simp at h
    · split at h
      · simp at h
      · simp at h
        simp [h]
      · split at h
        · split at h
          · simp at h
          · rename_i rest' r heq
            cases r with
            | none =>
              simp at h
              rw [ih rest' heq] at h
              simp [h]
            | some u => simp at h
        · simp at h

theorem check_containers_found_spec (w : World) :
    ∀ (cs cs' : List String) (n c t : String),
      check_containers w cs = .ok (cs', some (n, c, t)) →
        t ≠ c ∧ (n ++ ":" ++ t) ∈ cs' := by
  intro cs
  induction cs with
  | nil =>
    intro cs' n c t h
    simp [check_containers] at h
  | cons img rest ih =>
    intro cs' n c t h
    unfold check_containers at h
    split at h
    · simp at h
    · split at h
      · simp at h
      · simp at h
      · split at h
        · split at h
          · simp at h
          · rename_i rest' r heq
            cases r with
            | none => simp at h
            | some u =>
              simp at h
              obtain ⟨hcs, hu⟩ := h
              rw [hu] at heq
              have hspec := ih rest' n c t heq
              refine ⟨hspec.1, ?_⟩
              rw [← hcs]
              exact List.mem_cons_of_mem img hspec.2
        · rename_i nt new_tag hne
          simp at h
          obtain ⟨hcs, hn, hc, ht⟩ := h
          constructor
          · rw [← ht, ← hc]
            intro hx
            rw [hx] at hne
            simp at hne
          · rw [← hcs, ← hn, ← ht]
            exact List.mem_cons_self _ _

/-- C7: when tag resolution fails for a container (the resolver reports no
tag), `check_for_image_update` aborts the file with no record and the
document's containers are exactly as they were — never partially
rewritten. -/
theorem C7_failed_resolution_never_partially_rewrites :
    (∀ (w : World) (d d' : DeploymentDoc),
       check_for_image_update w d = .ok (d', none) → d' = d) ∧
    (∀ (w : World) (img : String) (rest : List String) (nt : String × String),
       parse_image img = some nt →
       get_latest_image_tag w nt.1 = .ok none →
       check_containers w (img :: rest) = .ok (img :: rest, none)) := by
  constructor
  · intro w d d' h
    unfold check_for_image_update at h
    cases hc : check_containers w d.containers with
    | error e =>
      rw [hc] at h
      simp at h
    | ok pr =>
      rw [hc] at h
      cases pr with
      | mk cs r =>
        cases r with
        | none =>
          simp at h
          have hcs : cs = d.containers :=
            check_containers_none_unchanged w d.containers cs hc
          rw [← h, hcs]
        | some u => simp at h
  · intro w img rest nt hp hg
    simp [check_containers, hp, hg]

/-- Decidable equality for `Except` results, so concrete runs can be checked
by `decide`. -/
instance {ε α : Type} [DecidableEq ε] [DecidableEq α] :
    DecidableEq (Except ε α) := fun a b =>
  match a, b with
  | .error e₁, .error e₂ =>
    if h : e₁ = e₂ then .isTrue (by rw [h])
    else .isFalse (by intro hx; cases hx; exact h rfl)
  | .error _, .ok _ => .isFalse (by intro hx; cases hx)
  | .ok _, .error _ => .isFalse (by intro hx; cases hx)
  | .ok a₁, .ok a₂ =>
    if h : a₁ = a₂ then .isTrue (by rw [h])
    else .isFalse (by intro hx; cases hx; exact h rfl)

/-- A run in which every network fetch fails. -/
def emptyWorld : World :=
  { docker_tags := fun _ => none, ghcr_tags := fun _ => none,
    quay_tags := fun _ => none, chart_index := fun _ => none }

/-- A small concrete run environment: Docker Hub knows `library/a`, and one
chart repository serves `appchart` (one stable update available) and
`betachart` (only a prerelease). -/
def demoWorld : World :=
  { docker_tags := fun n => if n = "library/a" then some ["1.1.0"] else none,
    ghcr_tags := fun _ => none,
    quay_tags := fun _ => none,
    chart_index := fun u =>
      if u = "https://charts.example/index.yaml" then
        some ⟨fun n =>
          if n = "appchart" then some ["1.2.0", "1.3.0-beta", "1.1.0"]
          else if n = "betachart" then some ["1.0.0-beta"]
          else none⟩
      else none }

theorem C7_witness :
    check_containers emptyWorld ["b:2"] = .ok (["b:2"], none) ∧
    (⟨["b:2"]⟩ : DeploymentDoc) = ⟨["b:2"]⟩ :=
  ⟨C7_failed_resolution_never_partially_rewrites.2 emptyWorld "b:2" []
      ("docker.io/b", "2") (by decide) (by decide),
   C7_failed_resolution_never_partially_rewrites.1 emptyWorld ⟨["b:2"]⟩
      ⟨["b:2"]⟩ (by decide)⟩

theorem check_dependencies_spec (w : World) :
    ∀ (deps deps' : List Dependency) (o v nm : String),
      check_dependencies w deps = (deps', some (o, v, nm)) →
        ∃ dep ∈ deps,
          dep.name = nm ∧ dep.version = o ∧ v ≠ o ∧
          { dep with version := v } ∈ deps' ∧
          ∃ idx, w.chart_index (repo_index_url dep.repository) = some idx ∧
            ∃ t, natsorted_rev
                (((idx.entries dep.name).getD []).filter chart_version_keep)
              = v :: t := by
  intro deps
  induction deps with
  | nil =>
    intro deps' o v nm h
    simp [check_dependencies] at h
  | cons dep rest ih =>
    intro deps' o v nm h
    unfold check_dependencies at h
    split at h
    · cases hrec : check_dependencies w rest with
      | mk l r =>
        rw [hrec] at h
        simp at h
        obtain ⟨hl, hr⟩ := h
        rw [hr] at hrec
        obtain ⟨d, hd, hrest⟩ := ih l o v nm hrec
        exact ⟨d, List.mem_cons_of_mem dep hd, hrest.1, hrest.2.1, hrest.2.2.1,
          by rw [← hl]; exact List.mem_cons_of_mem dep hrest.2.2.2.1,
          hrest.2.2.2.2⟩
    · rename_i idx hidx
      split at h
      · cases hrec : check_dependencies w rest with
        | mk l r =>
          rw [hrec] at h
          simp at h
          obtain ⟨hl, hr⟩ := h
          rw [hr] at hrec
          obtain ⟨d, hd, hrest⟩ := ih l o v nm hrec
          exact ⟨d, List.mem_cons_of_mem dep hd, hrest.1, hrest.2.1,
            hrest.2.2.1,
            by rw [← hl]; exact List.mem_cons_of_mem dep hrest.2.2.2.1,
            hrest.2.2.2.2⟩
      · rename_i v0 t0 hsorted
        split at h
        · cases hrec : check_dependencies w rest with
          | mk l r =>
            rw [hrec] at h
            simp at h
            obtain ⟨hl, hr⟩ := h
            rw [hr] at hrec
            obtain ⟨d, hd, hrest⟩ := ih l o v nm hrec
            exact ⟨d, List.mem_cons_of_mem dep hd, hrest.1, hrest.2.1,
              hrest.2.2.1,
              by rw [← hl]; exact List.mem_cons_of_mem dep hrest.2.2.2.1,
              hrest.2.2.2.2⟩
        · rename_i hne
          simp at h
          obtain ⟨hdeps, ho, hv, hnm⟩ := h
          subst hv
          refine ⟨dep, List.mem_cons_self _ _, hnm, ho, ?_, ?_, ?_⟩
          · rw [← ho]
            intro hx
            rw [hx] at hne
            simp at hne
          · rw [← hdeps]
            exact List.mem_cons_self _ _
          · exact ⟨idx, hidx, t0, hsorted⟩

/-- C6: every update record any of the three detectors emits has a new
version/tag different from the original, and the document carried in the
record already holds the new value in the targeted field (the rewritten
container image, the bumped dependency version, the bumped first helm
chart version). -/
theorem C6_update_record_invariants :
    (∀ (w : World) (d d' : DeploymentDoc) (u : ImageUpdate),
       check_for_image_update w d = .ok (d', some u) →
         u.new_tag ≠ u.current_tag ∧ u.deployment_file = d' ∧
         (u.image_name ++ ":" ++ u.new_tag) ∈ u.deployment_file.containers) ∧
    (∀ (w : World) (cdoc c' : ChartDoc) (u : ChartUpdate),
       check_for_chart_update w cdoc = (c', some u) →
         u.new_version ≠ u.original_version ∧ u.chart_file = c' ∧
         ∃ dep ∈ u.chart_file.dependencies,
           dep.name = u.chart_name ∧ dep.version = u.new_version) ∧
    (∀ (w : World) (k k' : KustomizeDoc) (u : KustomizeUpdate),
       check_for_helm_chart_update w k = .ok (k', some u) →
         u.new_version ≠ u.original_version ∧ u.kustomize_file = k' ∧
         ∃ ch rest2, u.kustomize_file.helmCharts = ch :: rest2 ∧
           ch.version = u.new_version) := by
  refine ⟨?_, ?_, ?_⟩
  · intro w d d' u h
    unfold check_for_image_update at h
    split at h
    · simp at h
    · simp at h
    · rename_i cs r heq
      obtain ⟨n, c, t⟩ := r
      simp at h
      obtain ⟨hd', hu⟩ := h
      have hspec := check_containers_found_spec w d.containers cs n c t heq
      subst hu
      subst hd'
      exact ⟨hspec.1, rfl, hspec.2⟩
  · intro w cdoc c' u h
    unfold check_for_chart_update at h
    split at h
    · simp at h
    · rename_i deps r heq
      obtain ⟨o, v, nm⟩ := r
      simp at h
      obtain ⟨hc', hu⟩ := h
      obtain ⟨dep, hdep, hnm, hver, hvo, hmem, _⟩ :=
        check_dependencies_spec w cdoc.dependencies deps o v nm heq
      subst hu
      subst hc'
      exact ⟨hvo, rfl, ⟨{ dep with version := v }, hmem, hnm, rfl⟩⟩
  · intro w k k' u h
    unfold check_for_helm_chart_update at h
    split at h
    · simp at h
    · rename_i dc rest2 hcharts
      split at h
      · simp at h
      · split at h
        · simp at h
        · split at h
          · simp at h
          · split at h
            · simp at h
            · rename_i v t hsorted
              split at h
              · simp at h
              · rename_i hne
                simp at h
                obtain ⟨hk', hu⟩ := h
                subst hu
                subst hk'
                refine ⟨?_, rfl, ?_⟩
                · show v ≠ dc.version
                  intro hx
                  rw [hx] at hne
                  simp at hne
                · exact ⟨{ dc with version := v }, rest2, rfl, rfl⟩

theorem C6_witness :
    (("1.1.0" : String) ≠ "1.0.0" ∧
      (⟨["docker.io/a:1.1.0"]⟩ : DeploymentDoc) = ⟨["docker.io/a:1.1.0"]⟩ ∧
      ("docker.io/a" ++ ":" ++ "1.1.0")
        ∈ (⟨["docker.io/a:1.1.0"]⟩ : DeploymentDoc).containers) ∧
    (("1.2.0" : String) ≠ "1.1.0" ∧
      ∃ dep ∈ (⟨[⟨"appchart", "https://charts.example", "1.2.0"⟩]⟩ :
          ChartDoc).dependencies,
        dep.name = "appchart" ∧ dep.version = "1.2.0") := by
  constructor
  · have h := C6_update_record_invariants.1 demoWorld ⟨["a:1.0.0"]⟩
      ⟨["docker.io/a:1.1.0"]⟩
      ⟨⟨["docker.io/a:1.1.0"]⟩, "docker.io/a", "1.0.0", "1.1.0"⟩ (by decide)
    exact h
  · have h := C6_update_record_invariants.2.1 demoWorld
      ⟨[⟨"appchart", "https://charts.example", "1.1.0"⟩]⟩
      ⟨[⟨"appchart", "https://charts.example", "1.2.0"⟩]⟩
      ⟨⟨[⟨"appchart", "https://charts.example", "1.2.0"⟩]⟩,
        "1.1.0", "1.2.0", "appchart"⟩ (by decide)
    exact ⟨h.1, h.2.2⟩

theorem natGEb_trans3 (a b c : String) (h₁ : natGEb a b = true)
    (h₂ : natGEb b c = true) : natGEb a c = true := natGEb_trans h₁ h₂

/-- C3: the Registry Tag Resolver keeps exactly the tags matching
`^v?\d+\.\d+\.\d+(?:\.\d+)?$`, returns them natural-sorted descending
(pairwise ≥ under the natural order), and the first returned element is ≥
every surviving tag; on the spec's example input the result is
`["v2.0.0.1", "1.2.3"]`. -/
theorem C3_registry_tag_resolver :
    (filter_and_sort_tags ["1.2.3", "1.2.3-rc1", "latest", "v2.0.0.1", "abc"]
       = some ["v2.0.0.1", "1.2.3"]) ∧
    (∀ tags : List String,
       (filter_and_sort_tags tags = none ↔
         tags.filter version_tag_matches = [])) ∧
    (∀ (tags l : List String), filter_and_sort_tags tags = some l →
       l.Perm (tags.filter version_tag_matches) ∧
       l.Pairwise (fun a b => natGEb a b = true) ∧
       ∀ (hd : String) (t : List String), l = hd :: t →
         ∀ x ∈ tags, version_tag_matches x = true → natGEb hd x = true) := by
  refine ⟨by decide, ?_, ?_⟩
  · intro tags
    unfold filter_and_sort_tags
    cases hemp : (tags.filter version_tag_matches).isEmpty
    · simp only [hemp, Bool.false_eq_true, if_false]
      constructor
      · intro hx
        exact absurd hx (by simp)
      · intro hx
        rw [hx] at hemp
        simp at hemp
    · simp only [hemp, if_true]
      simp [List.isEmpty_iff.mp hemp]
  · intro tags l hsome
    have hl : l = natsorted_rev (tags.filter version_tag_matches) := by
      simp only [filter_and_sort_tags] at hsome
      cases hemp : (tags.filter version_tag_matches).isEmpty
      · rw [hemp] at hsome
        simp at hsome
        exact hsome.symm
      · rw [hemp] at hsome
        simp at hsome
    subst hl
    refine ⟨perm_sortLe natGEb _,
      pairwise_sortLe natGEb natGEb_total natGEb_trans3 _, ?_⟩
    intro hd t hht x hx hmx
    exact head_dominates_sortLe natGEb natGEb_total natGEb_trans3
      (tags.filter version_tag_matches) hd t hht x
      (List.mem_filter.mpr ⟨hx, hmx⟩)

theorem C3_witness :
    (["v2.0.0.1", "1.2.3"] : List String).Perm
      ((["1.2.3", "1.2.3-rc1", "latest", "v2.0.0.1", "abc"] :
          List String).filter version_tag_matches) ∧
    natGEb "v2.0.0.1" "1.2.3" = true := by
  have h := C3_registry_tag_resolver.2.2
    ["1.2.3", "1.2.3-rc1", "latest", "v2.0.0.1", "abc"] ["v2.0.0.1", "1.2.3"]
    (by decide)
  exact ⟨h.1, h.2.2 "v2.0.0.1" ["1.2.3"] rfl "1.2.3" (by decide) (by decide)⟩

/-- C4: for every chart index and dependency, the Chart Version Resolver's
selected new version survives the `dev`/`alpha`/`beta` substring filter,
comes from the listed versions of that chart, and is greatest in natural
order among all surviving versions; on the spec's example version list
`["1.2.0", "1.3.0-beta", "1.1.0"]` it selects `"1.2.0"`. -/
theorem C4_chart_version_resolver :
    (∀ (w : World) (cdoc c' : ChartDoc) (u : ChartUpdate),
       check_for_chart_update w cdoc = (c', some u) →
         ∃ dep ∈ cdoc.dependencies,
           ∃ idx, w.chart_index (repo_index_url dep.repository) = some idx ∧
             u.chart_name = dep.name ∧
             chart_version_keep u.new_version = true ∧
             u.new_version ∈ (idx.entries dep.name).getD [] ∧
             ∀ x ∈ ((idx.entries dep.name).getD []).filter chart_version_keep,
               natGEb u.new_version x = true) ∧
    (check_for_chart_update demoWorld
        ⟨[⟨"appchart", "https://charts.example", "1.1.0"⟩]⟩
      = (⟨[⟨"appchart", "https://charts.example", "1.2.0"⟩]⟩,
         some ⟨⟨[⟨"appchart", "https://charts.example", "1.2.0"⟩]⟩,
           "1.1.0", "1.2.0", "appchart"⟩)) := by
  constructor
  · intro w cdoc c' u h
    unfold check_for_chart_update at h
    split at h
    · simp at h
    · rename_i deps r heq
      obtain ⟨o, v, nm⟩ := r
      simp at h
      obtain ⟨hc', hu⟩ := h
      subst hu
      obtain ⟨dep, hdep, hnm, hver, hvo, hmem, idx, hidx, t, hsorted⟩ :=
        check_dependencies_spec w cdoc.dependencies deps o v nm heq
      have hvmem : v ∈ natsorted_rev
          (((idx.entries dep.name).getD []).filter chart_version_keep) := by
        rw [hsorted]
        exact List.mem_cons_self _ _
      have hvfilter : v ∈ ((idx.entries dep.name).getD []).filter
          chart_version_keep :=
        (perm_sortLe natGEb _).mem_iff.mp hvmem
      refine ⟨dep, hdep, idx, hidx, hnm.symm, ?_, ?_, ?_⟩
      · exact (List.mem_filter.mp hvfilter).2
      · exact (List.mem_filter.mp hvfilter).1
      · intro x hxf
        exact head_dominates_sortLe natGEb natGEb_total natGEb_trans3 _
          v t hsorted x hxf
  · decide

theorem C4_witness :
    ∃ dep ∈ ([⟨"appchart", "https://charts.example", "1.1.0"⟩] :
        List Dependency),
      ∃ idx, demoWorld.chart_index (repo_index_url dep.repository) = some idx ∧
        ("appchart" : String) = dep.name ∧
        chart_version_keep "1.2.0" = true ∧
        ("1.2.0" : String) ∈ (idx.entries dep.name).getD [] ∧
        ∀ x ∈ ((idx.entries dep.name).getD []).filter chart_version_keep,
          natGEb "1.2.0" x = true :=
  C4_chart_version_resolver.1 demoWorld
    ⟨[⟨"appchart", "https://charts.example", "1.1.0"⟩]⟩
    ⟨[⟨"appchart", "https://charts.example", "1.2.0"⟩]⟩
    ⟨⟨[⟨"appchart", "https://charts.example", "1.2.0"⟩]⟩,
      "1.1.0", "1.2.0", "appchart"⟩ (by decide)

theorem contains_eq_mem (l : List Char) (c : Char) :
    l.contains c = true ↔ c ∈ l := by
  simp [List.contains, List.elem_iff]

/-- C10: a container image string with no `:` separator makes `parse_image`
fail (the two-name unpacking of `rsplit(":", 1)` raises `ValueError` instead
of producing a default tag); `check_for_image_update` propagates it, and the
deployment loop — which catches only YAML errors — lets it escape the
per-file boundary instead of skipping the file. -/
theorem C10_untagged_image_error_escapes :
    (∀ img : String, str_contains img ':' = false → parse_image img = none) ∧
    (∀ (w : World) (img : String) (rest : List String),
       parse_image img = none →
       check_for_image_update w ⟨img :: rest⟩ = .error .valueErrorUnpack) ∧
    (∀ (w : World) (f : RawFile DeploymentDoc)
       (fs : List (RawFile DeploymentDoc)) (doc : DeploymentDoc)
       (e : RunError),
       f.parsed = some doc → check_for_image_update w doc = .error e →
       deployment_files_find_image_updates w (f :: fs) = .error e) := by
  refine ⟨?_, ?_, ?_⟩
  · intro img h
    have hmem : ':' ∉ img.toList := by
      intro hm
      rw [← contains_eq_mem] at hm
      rw [str_contains] at h
      rw [h] at hm
      exact absurd hm (by simp)
    unfold parse_image rsplitColon
    by_cases hc : str_contains img '/' = true
    · simp only [hc, if_true]
      have : (img.toList.reverse.contains ':') = false := by
        cases hx : img.toList.reverse.contains ':'
        · rfl
        · exact absurd (List.mem_reverse.mp ((contains_eq_mem _ _).mp hx))
            hmem
      simp [this]
      exact hmem
    · simp only [Bool.not_eq_true] at hc
      simp only [hc, Bool.false_eq_true, if_false]
      have hmem2 : ':' ∉ ("docker.io/" ++ img).toList := by
        intro hm
        simp only [String.toList, String.data_append] at hm
        rcases List.mem_append.mp hm with hm1 | hm2
        · exact absurd hm1 (by decide)
        · exact hmem hm2
      have : (("docker.io/" ++ img).toList.reverse.contains ':') = false := by
        cases hx : ("docker.io/" ++ img).toList.reverse.contains ':'
        · rfl
        · exact absurd (List.mem_reverse.mp ((contains_eq_mem _ _).mp hx))
            hmem2
      simp [this]
      exact hmem
  · intro w img rest hp
    unfold check_for_image_update
    have : check_containers w (img :: rest) = .error .valueErrorUnpack := by
      simp [check_containers, hp]
    simp [this]
  · intro w f fs doc e hparsed hcheck
    simp only [deployment_files_find_image_updates, hparsed, hcheck]

def c10File : RawFile DeploymentDoc :=
  ⟨"apps/web/deployment.yaml", "sha-web", some ⟨["nginx"]⟩⟩

theorem C10_witness :
    parse_image "nginx" = none ∧
    deployment_files_find_image_updates emptyWorld [c10File]
      = .error .valueErrorUnpack := by
  have h1 := C10_untagged_image_error_escapes.1 "nginx" (by decide)
  refine ⟨h1, ?_⟩
  have h2 := C10_untagged_image_error_escapes.2.1 emptyWorld "nginx" [] h1
  exact C10_untagged_image_error_escapes.2.2 emptyWorld c10File [] ⟨["nginx"]⟩
    .valueErrorUnpack rfl h2

/-- A deployment file the loop passes over without output: a YAML parse
error (caught), or a checker run that soft-fails or finds nothing. -/
def deployment_file_skipped (w : World) (f : RawFile DeploymentDoc) : Prop :=
  f.parsed = none ∨
  ∃ doc d', f.parsed = some doc ∧
    check_for_image_update w doc = .ok (d', none)

/-- A kustomize file the loop passes over without output: a YAML parse
error, a missing `helmCharts` key, or a checker run that soft-fails
(databases namespace, failed index fetch, no newer version). -/
def kustomize_file_skipped (w : World) (f : RawFile KustomizeParsed) : Prop :=
  f.parsed = none ∨
  ∃ p, f.parsed = some p ∧
    (p.helmCharts = none ∨
     ∃ charts k', p.helmCharts = some charts ∧
       check_for_helm_chart_update w ⟨charts⟩ = .ok (k', none))

/-- A `Chart.yaml` file the loop passes over without output. -/
def chart_file_skipped (w : World) (f : RawFile ChartDoc) : Prop :=
  f.parsed = none ∨
  ∃ doc d', f.parsed = some doc ∧ check_for_chart_update w doc = (d', none)

def c2BadFile : RawFile DeploymentDoc :=
  ⟨"bad/deployment.yaml", "sha-bad", some ⟨["example.com/app:1.0"]⟩⟩

def c2GoodFile : RawFile DeploymentDoc :=
  ⟨"good/deployment.yaml", "sha-good", some ⟨["a:1.0.0"]⟩⟩

def c2GoodRec : ImageUpdateRec :=
  ⟨⟨["docker.io/a:1.1.0"]⟩, "docker.io/a", "1.0.0", "1.1.0",
    "good/deployment.yaml", "sha-good"⟩

def c2KBadFile : RawFile KustomizeParsed :=
  ⟨"kbad/kustomization.yaml", "sha-kbad",
    some ⟨some [⟨"betachart", "https://charts.example", "1.0.0",
      some "beta-rel", none⟩]⟩⟩

def c2KGoodFile : RawFile KustomizeParsed :=
  ⟨"kgood/kustomization.yaml", "sha-kgood",
    some ⟨some [⟨"appchart", "https://charts.example", "1.1.0",
      some "app-rel", none⟩]⟩⟩

def c2KGoodRec : KustomizeUpdateRec :=
  ⟨⟨[⟨"appchart", "https://charts.example", "1.2.0", some "app-rel", none⟩]⟩,
    "1.1.0", "1.2.0", some "app-rel", "kgood/kustomization.yaml", "sha-kgood"⟩

/-- C2 fails as stated: two of the failure kinds it lists are exceptions the
per-file loops do not catch.  A deployment file whose image registry host
cannot be handled (`example.com`) raises `ValueError` and the whole loop
errors out, losing the record the good file alone would produce; a Kustomize
chart whose version list is empty after prerelease filtering raises
`IndexError` with the same effect. -/
theorem C2_counterexample :
    deployment_files_find_image_updates demoWorld [c2BadFile, c2GoodFile]
      = .error (.unsupportedRegistry "example.com") ∧
    deployment_files_find_image_updates demoWorld [c2GoodFile]
      = .ok [c2GoodRec] ∧
    kustomize_files_find_helm_charts_with_updates demoWorld
        [c2KBadFile, c2KGoodFile] = .error .indexError ∧
    kustomize_files_find_helm_charts_with_updates demoWorld [c2KGoodFile]
      = .ok [c2KGoodRec] := by decide

/-- C2 (amended): a failure the code catches or soft-fails — a malformed
document (YAML error), a failed index or registry fetch, an empty filtered
version list in a `Chart.yaml` dependency, or a lookup that finds nothing —
never prevents the remaining files of the same loop from being processed:
dropping such a file from the input leaves the loop's output unchanged.
(Unsupported registry hosts and empty filtered version lists in the
Kustomize branch are excluded: they raise and abort the loop, see the
counterexample.) -/
theorem C2_amended_partial_progress :
    (∀ (w : World) (xs ys : List (RawFile DeploymentDoc))
       (b : RawFile DeploymentDoc), deployment_file_skipped w b →
       deployment_files_find_image_updates w (xs ++ b :: ys)
         = deployment_files_find_image_updates w (xs ++ ys)) ∧
    (∀ (w : World) (xs ys : List (RawFile KustomizeParsed))
       (b : RawFile KustomizeParsed), kustomize_file_skipped w b →
       kustomize_files_find_helm_charts_with_updates w (xs ++ b :: ys)
         = kustomize_files_find_helm_charts_with_updates w (xs ++ ys)) ∧
    (∀ (w : World) (xs ys : List (RawFile ChartDoc))
       (b : RawFile ChartDoc), chart_file_skipped w b →
       chart_files_find_chart_updates w (xs ++ b :: ys)
         = chart_files_find_chart_updates w (xs ++ ys)) := by
  refine ⟨?_, ?_, ?_⟩
  · intro w xs ys b hb
    induction xs with
    | nil =>
      simp only [List.nil_append]
      rcases hb with hnone | ⟨doc, d', hpar, hchk⟩
      · simp only [deployment_files_find_image_updates, hnone]
      · simp only [deployment_files_find_image_updates, hpar, hchk]
    | cons f xs ih =>
      simp only [List.cons_append, deployment_files_find_image_updates,
        List.append_eq, ih]
  · intro w xs ys b hb
    induction xs with
    | nil =>
      simp only [List.nil_append]
      rcases hb with hnone | ⟨p, hpar, hnochart | ⟨charts, k', hcharts, hchk⟩⟩
      · simp only [kustomize_files_find_helm_charts_with_updates, hnone]
      · simp only [kustomize_files_find_helm_charts_with_updates, hpar,
          hnochart]
      · simp only [kustomize_files_find_helm_charts_with_updates, hpar,
          hcharts, hchk]
    | cons f xs ih =>
      simp only [List.cons_append,
        kustomize_files_find_helm_charts_with_updates, List.append_eq, ih]
  · intro w xs ys b hb
    induction xs with
    | nil =>
      simp only [List.nil_append]
      rcases hb with hnone | ⟨doc, d', hpar, hchk⟩
      · simp only [chart_files_find_chart_updates, hnone]
      · simp only [chart_files_find_chart_updates, hpar, hchk]
    | cons f xs ih =>
      simp only [List.cons_append, chart_files_find_chart_updates,
        List.append_eq, ih]

def c2YamlBadFile : RawFile DeploymentDoc :=
  ⟨"broken/deployment.yaml", "sha-broken", none⟩

def c2FetchFailFile : RawFile KustomizeParsed :=
  ⟨"unreachable/kustomization.yaml", "sha-unreach",
    some ⟨some [⟨"appchart", "https://other.example", "1.0.0",
      some "other-rel", none⟩]⟩⟩

def c2ChartYamlBadFile : RawFile ChartDoc :=
  ⟨"broken/Chart.yaml", "sha-cbroken", none⟩

theorem C2_witness :
    deployment_files_find_image_updates demoWorld
        [c2YamlBadFile, c2GoodFile]
      = deployment_files_find_image_updates demoWorld [c2GoodFile] ∧
    kustomize_files_find_helm_charts_with_updates demoWorld
        [c2FetchFailFile, c2KGoodFile]
      = kustomize_files_find_helm_charts_with_updates demoWorld
          [c2KGoodFile] ∧
    chart_files_find_chart_updates demoWorld [c2ChartYamlBadFile]
      = chart_files_find_chart_updates demoWorld [] :=
  ⟨C2_amended_partial_progress.1 demoWorld [] [c2GoodFile] c2YamlBadFile
      (Or.inl rfl),
   C2_amended_partial_progress.2.1 demoWorld [] [c2KGoodFile] c2FetchFailFile
      (Or.inr ⟨⟨some [⟨"appchart", "https://other.example", "1.0.0",
          some "other-rel", none⟩]⟩, rfl,
        Or.inr ⟨[⟨"appchart", "https://other.example", "1.0.0",
            some "other-rel", none⟩],
          ⟨[⟨"appchart", "https://other.example", "1.0.0",
            some "other-rel", none⟩]⟩, rfl, by decide⟩⟩),
   C2_amended_partial_progress.2.2 demoWorld [] [] c2ChartYamlBadFile
      (Or.inl rfl)⟩
